import Mathlib

/-
Verification of the Topology/TopologyMolecule indexing and deduplication
engine of openforcefield/topology/topology.py, as a shallow embedding.

Python dicts are modelled as insertion-ordered association lists with unique
keys; Python exceptions as `Except String`; the fall-through `return None` of
the linear index scans as `Option`.  Machine integers do not overflow here
(all indices are small naturals), so indices are `Nat`/`Int` directly.
-/

set_option maxHeartbeats 1000000

namespace OpenFF

/-! ## Backing store of `_TransformedDict` (topology.py lines 52-76)

The `store` attribute is an `OrderedDict`: an insertion-ordered mapping with
unique keys.  `storeGet` models `self.store[k]` lookup, `storeSet` models
assignment (update-in-place when present, append otherwise), `storeDel`
models `del` (raising `KeyError`, i.e. `none`, when the key is absent). -/

def storeGet {κ V : Type} [DecidableEq κ] (s : List (κ × V)) (k : κ) : Option V :=
  match s with
  | [] => none
  | p :: rest => if p.1 = k then some p.2 else storeGet rest k

def storeSet {κ V : Type} [DecidableEq κ] (s : List (κ × V)) (k : κ) (v : V) :
    List (κ × V) :=
  match s with
  | [] => [(k, v)]
  | p :: rest => if p.1 = k then (k, v) :: rest else p :: storeSet rest k v

def storeDel {κ V : Type} [DecidableEq κ] (s : List (κ × V)) (k : κ) :
    Option (List (κ × V)) :=
  match s with
  | [] => none
  | p :: rest =>
      if p.1 = k then some rest
      else (storeDel rest k).map (p :: ·)

/-- Keys of a Python dict are unique; association lists reachable through the
store operations keep this invariant. -/
def storeKeysNodup {κ V : Type} (s : List (κ × V)) : Prop :=
  (s.map Prod.fst).Nodup

/-! ## ValenceDict (topology.py lines 78-87) -/

/-- ValenceDict.__keytransform__: reverse the index tuple when its first
element is larger than its last.  The source indexes `key[0]` and `key[-1]`,
so its keys are nonempty tuples; on the empty tuple (where Python would raise
an IndexError) this returns the key unchanged, and no claim exercises it. -/
def ValenceDict.keytransform (key : List Nat) : List Nat :=
  if key.getLastD 0 < key.headD 0 then key.reverse else key

def ValenceDict.getItem {V : Type} (d : List (List Nat × V)) (key : List Nat) :
    Option V :=
  storeGet d (ValenceDict.keytransform key)

def ValenceDict.setItem {V : Type} (d : List (List Nat × V)) (key : List Nat)
    (v : V) : List (List Nat × V) :=
  storeSet d (ValenceDict.keytransform key) v

def ValenceDict.delItem {V : Type} (d : List (List Nat × V)) (key : List Nat) :
    Option (List (List Nat × V)) :=
  storeDel d (ValenceDict.keytransform key)

/-! ## ImproperDict (topology.py lines 89-101) -/

/-- Ascending sort of three naturals, the effect of `list.sort()` on the
three-element list `[key[0], key[2], key[3]]` built by the source. -/
def sort3 (a b c : Nat) : Nat × Nat × Nat :=
  if a ≤ b then
    if b ≤ c then (a, b, c)
    else if a ≤ c then (a, c, b)
    else (c, a, b)
  else
    if a ≤ c then (b, a, c)
    else if b ≤ c then (b, c, a)
    else (c, b, a)

/-- ImproperDict.__keytransform__: sort the connected atoms `key[0]`, `key[2]`,
`key[3]` ascending and keep the central atom `key[1]` in position 1.  Improper
torsion keys are 4-tuples, so the key type is a quadruple. -/
def ImproperDict.keytransform (key : Nat × Nat × Nat × Nat) :
    Nat × Nat × Nat × Nat :=
  let connectedatoms := sort3 key.1 key.2.2.1 key.2.2.2
  (connectedatoms.1, key.2.1, connectedatoms.2.1, connectedatoms.2.2)

def ImproperDict.getItem {V : Type} (d : List ((Nat × Nat × Nat × Nat) × V))
    (key : Nat × Nat × Nat × Nat) : Option V :=
  storeGet d (ImproperDict.keytransform key)

def ImproperDict.setItem {V : Type} (d : List ((Nat × Nat × Nat × Nat) × V))
    (key : Nat × Nat × Nat × Nat) (v : V) : List ((Nat × Nat × Nat × Nat) × V) :=
  storeSet d (ImproperDict.keytransform key) v

def ImproperDict.delItem {V : Type} (d : List ((Nat × Nat × Nat × Nat) × V))
    (key : Nat × Nat × Nat × Nat) : Option (List ((Nat × Nat × Nat × Nat) × V)) :=
  storeDel d (ImproperDict.keytransform key)

/-! ## Constraint records (topology.py lines 2110-2161)

`Topology._constrained_atom_pairs` maps atom-index pairs to `True` (pending
constraint), `False`, or a distance Quantity.  Distances are modelled as
rationals; the unit machinery is an external collaborator. -/

/-- Value stored in `_constrained_atom_pairs`: Python `True` (constraint
pending, distance not yet determined), `False` (the not-constrained
sentinel), or a distance quantity. -/
inductive CVal where
  | pending
  | notConstrained
  | dist (q : ℚ)
deriving DecidableEq

/-- Model of `simtk.unit.is_quantity`: true exactly on distance values. -/
def CVal.is_quantity : CVal → Bool
  | .dist _ => true
  | _ => false

abbrev CMap := List ((Nat × Nat) × CVal)

/-- Topology.add_constraint (lines 2110-2140).  The conflict checks run before
any mutation, so an `.error` result leaves the caller's map untouched; the
two `del` statements raise `KeyError` when their key is absent. -/
def Topology.add_constraint (m : CMap) (iatom jatom : Nat)
    (distance : CVal) : Except String CMap :=
  match storeGet m (iatom, jatom) with
  | some existing =>
      if existing.is_quantity ∧ distance = .pending then
        .error "already constrained with distance but attempting to override with unspecified distance"
      else if existing = .pending ∧ distance = .pending then
        .error "already constrained with unspecified distance but attempting to override with unspecified distance"
      else if distance = .notConstrained then
        match storeDel m (iatom, jatom) with
        | none => .error "KeyError"
        | some m1 =>
            match storeDel m1 (jatom, iatom) with
            | none => .error "KeyError"
            | some m2 => .ok m2
      else
        .ok (storeSet (storeSet m (iatom, jatom) distance) (jatom, iatom) distance)
  | none =>
      .ok (storeSet (storeSet m (iatom, jatom) distance) (jatom, iatom) distance)

/-- Topology.is_constrained (lines 2142-2161): the stored value when the pair
is a key, otherwise the not-constrained sentinel `False`. -/
def Topology.is_constrained (m : CMap) (iatom jatom : Nat) : CVal :=
  match storeGet m (iatom, jatom) with
  | some v => v
  | none => .notConstrained

/-! ## Attributed graphs and the external Molecule capability -/

/-- The mathematical content of an attributed `networkx` graph:
nodes carry an atom index and an atomic number, edges carry two endpoint
indices and an optional bond order. -/
structure GraphVal where
  nodes : List (Nat × Nat)
  edges : List (Nat × Nat × Option Nat)
deriving DecidableEq

/-- A `networkx.Graph` object.  `networkx` does not override `__eq__` or
`__hash__`, so dict-key membership for graphs compares Python object
identity; `objId` models that identity.  Every `to_networkx()` call
allocates a fresh object, hence a fresh `objId`. -/
structure NxGraph where
  val : GraphVal
  objId : Nat

/-- External Molecule capability (spec section 6): an opaque chemical graph
exposing a canonical fingerprint, entity counts, substructure matching, and
conversion to an attributed graph.  `chemical_environment_matches` returns
the local atom-index tuples matching a SMARTS pattern, in the capability's
own order. -/
structure Molecule where
  smiles : String
  n_atoms : Nat
  n_bonds : Nat
  n_particles : Nat
  n_virtual_sites : Nat
  chemical_environment_matches : String → List (List Nat)
  to_networkx_val : GraphVal

instance : Inhabited Molecule :=
  ⟨⟨"", 0, 0, 0, 0, fun _ => [], ⟨[], []⟩⟩⟩

/-- FrozenMolecule(molecule): an immutable copy with the same structure,
fingerprint and capabilities. -/
def FrozenMolecule (molecule : Molecule) : Molecule := molecule

/-- The unique-molecule graph phase of Topology.from_openmm (lines 1566-1574).
Each loop iteration calls `to_networkx()` twice — once for the membership
test and once for the stored key — so `counter` advances by two fresh object
identities per molecule; `acc` is the `graph_to_unq_mol` mapping built so
far (its keys are `NxGraph` objects compared by identity, as in Python). -/
def from_openmm_graph_phase :
    List Molecule → Nat → List (NxGraph × Molecule) →
      Except String (List (NxGraph × Molecule))
  | [], _, acc => .ok acc
  | unq_mol :: rest, counter, acc =>
      let unq_graph : NxGraph := ⟨unq_mol.to_networkx_val, counter⟩
      if acc.any (fun p => p.1.objId == unq_graph.objId) then
        .error "Two unique molecules have indistinguishable graphs"
      else
        from_openmm_graph_phase rest (counter + 2)
          (acc ++ [(⟨unq_mol.to_networkx_val, counter + 1⟩, unq_mol)])

/-! ## TopologyMolecule and the Topology* views -/

/-- One placed instance of a reference molecule.  `refIdx` is the position of
its reference molecule in the topology's ordered reference-molecule mapping;
`instId` models Python object identity (each `add_molecule` call constructs
a fresh `TopologyMolecule` object, and the class defines no `__eq__`, so
`==` compares identity). -/
structure TopologyMolecule where
  refIdx : Nat
  instId : Nat
deriving DecidableEq

/-- TopologyAtom (lines 404-526): a view pairing a reference-molecule atom
(identified by its molecule-local index, since `reference.atoms[i]` has
`molecule_atom_index == i`) with the owning TopologyMolecule. -/
structure TopologyAtom where
  molecule_atom_index : Nat
  topology_molecule : TopologyMolecule
deriving DecidableEq

/-- TopologyBond (lines 534-623): the analogous bond view. -/
structure TopologyBond where
  molecule_bond_index : Nat
  topology_molecule : TopologyMolecule
deriving DecidableEq

/-- TopologyVirtualSite (lines 626-753): the analogous virtual-site view. -/
structure TopologyVirtualSite where
  molecule_virtual_site_index : Nat
  topology_molecule : TopologyMolecule
deriving DecidableEq

/-- The Topology aggregate root (lines 1006-1107): the ordered reference
molecules (`_reference_molecule_to_topology_molecules` keys), the parallel
per-reference instance lists (that OrderedDict's values), and the global
ordered instance list `_topology_molecules`.  Constraint records and box
metadata are modelled separately. -/
structure Topology where
  refMols : List Molecule
  refInstances : List (List TopologyMolecule)
  topMols : List TopologyMolecule

/-- TopologyMolecule._reference_molecule, resolved through the topology's
reference table (the Python object holds the reference directly; the index
resolves to that same object). -/
def TopologyMolecule.reference_molecule (tm : TopologyMolecule) (t : Topology) :
    Molecule :=
  t.refMols.getD tm.refIdx default

/-- TopologyMolecule.n_atoms (lines 801-810): delegates to the reference. -/
def TopologyMolecule.n_atoms (tm : TopologyMolecule) (t : Topology) : Nat :=
  (tm.reference_molecule t).n_atoms

/-- TopologyMolecule.n_bonds (lines 878-886). -/
def TopologyMolecule.n_bonds (tm : TopologyMolecule) (t : Topology) : Nat :=
  (tm.reference_molecule t).n_bonds

/-- TopologyMolecule.n_particles (lines 928-936). -/
def TopologyMolecule.n_particles (tm : TopologyMolecule) (t : Topology) : Nat :=
  (tm.reference_molecule t).n_particles

/-- TopologyMolecule.n_virtual_sites (lines 976-984). -/
def TopologyMolecule.n_virtual_sites (tm : TopologyMolecule) (t : Topology) : Nat :=
  (tm.reference_molecule t).n_virtual_sites

/-- The accumulator loop shared by the `*_start_topology_index` properties
(for example lines 840-847): scan the topology's instance list, accumulating
`cnt` of each earlier instance, until `self` is reached by identity; when the
loop ends without finding `self`, Python falls through and returns `None`. -/
def start_topology_index_scan (cnt : TopologyMolecule → Nat)
    (self : TopologyMolecule) :
    List TopologyMolecule → Nat → Option Nat
  | [], _ => none
  | tm :: rest, acc =>
      if self = tm then some acc
      else start_topology_index_scan cnt self rest (acc + cnt tm)

/-- TopologyMolecule.atom_start_topology_index (lines 840-847). -/
def TopologyMolecule.atom_start_topology_index (tm : TopologyMolecule)
    (t : Topology) : Option Nat :=
  start_topology_index_scan (fun m => m.n_atoms t) tm t.topMols 0

/-- TopologyAtom.topology_atom_index (lines 468-478):
`atom_start_topology_index + molecule_atom_index`. -/
def TopologyAtom.topology_atom_index (ta : TopologyAtom) (t : Topology) :
    Option Nat :=
  (ta.topology_molecule.atom_start_topology_index t).map
    (· + ta.molecule_atom_index)

/-! ## Topology aggregate counters and global lookups -/

/-- The grouped counter computation shared by Topology.n_atoms, n_bonds,
n_particles and n_virtual_sites (lines 1320-1387): for each reference
molecule, its per-instance count times the number of instances of that
reference molecule, summed in key order.  The two lists are the keys and
values of `_reference_molecule_to_topology_molecules`, traversed in
parallel. -/
def groupedCount (f : Molecule → Nat) :
    List Molecule → List (List TopologyMolecule) → Nat
  | [], _ => 0
  | _ :: _, [] => 0
  | rm :: rms, insts :: iss => f rm * insts.length + groupedCount f rms iss

/-- Topology.n_atoms (lines 1320-1330). -/
def Topology.n_atoms (t : Topology) : Nat :=
  groupedCount Molecule.n_atoms t.refMols t.refInstances

/-- Topology.n_bonds (lines 1339-1349). -/
def Topology.n_bonds (t : Topology) : Nat :=
  groupedCount Molecule.n_bonds t.refMols t.refInstances

/-- Topology.n_particles (lines 1358-1368). -/
def Topology.n_particles (t : Topology) : Nat :=
  groupedCount Molecule.n_particles t.refMols t.refInstances

/-- Topology.n_virtual_sites (lines 1377-1387). -/
def Topology.n_virtual_sites (t : Topology) : Nat :=
  groupedCount Molecule.n_virtual_sites t.refMols t.refInstances

/-- Topology.n_reference_molecules (lines 1298-1306): counts the reference
molecules by iterating them, which is the length of the key list. -/
def Topology.n_reference_molecules (t : Topology) : Nat :=
  t.refMols.length

/-- Topology.n_molecules (lines 1308-1313). -/
def Topology.n_molecules (t : Topology) : Nat :=
  t.topMols.length

/-- The linear scan shared by Topology.atom, Topology.bond and
Topology.virtual_site (lines 1990-1997, 2052-2059, 2026-2033): walk the
instance list accumulating per-instance counts until the accumulated count
exceeds the requested global index, then return the local index and the
owning instance; falling off the loop returns `None`. -/
def topology_index_scan (cnt : TopologyMolecule → Nat) (k : Nat) :
    List TopologyMolecule → Nat → Option (Nat × TopologyMolecule)
  | [], _ => none
  | tm :: rest, this_start =>
      if k < this_start + cnt tm then some (k - this_start, tm)
      else topology_index_scan cnt k rest (this_start + cnt tm)

/-- Topology.atom (lines 1975-2007): assert `0 <= k < n_atoms` (an
AssertionError is the `.error` result), then scan; the scanned instance's
`atom(local)` wraps `reference.atoms[local]` — whose `molecule_atom_index`
is `local` — together with the instance. -/
def Topology.atom (t : Topology) (atom_topology_index : Int) :
    Except String (Option TopologyAtom) :=
  if 0 ≤ atom_topology_index ∧ atom_topology_index < (t.n_atoms : Int) then
    .ok ((topology_index_scan (fun m => m.n_atoms t) atom_topology_index.toNat
          t.topMols 0).map (fun p => ⟨p.1, p.2⟩))
  else
    .error "AssertionError"

/-- Topology.bond (lines 2037-2059). -/
def Topology.bond (t : Topology) (bond_topology_index : Int) :
    Except String (Option TopologyBond) :=
  if 0 ≤ bond_topology_index ∧ bond_topology_index < (t.n_bonds : Int) then
    .ok ((topology_index_scan (fun m => m.n_bonds t) bond_topology_index.toNat
          t.topMols 0).map (fun p => ⟨p.1, p.2⟩))
  else
    .error "AssertionError"

/-- Topology.virtual_site (lines 2010-2033). -/
def Topology.virtual_site (t : Topology) (vsite_topology_index : Int) :
    Except String (Option TopologyVirtualSite) :=
  if 0 ≤ vsite_topology_index ∧ vsite_topology_index < (t.n_virtual_sites : Int) then
    .ok ((topology_index_scan (fun m => m.n_virtual_sites t)
          vsite_topology_index.toNat t.topMols 0).map (fun p => ⟨p.1, p.2⟩))
  else
    .error "AssertionError"

/-! ## Construction and deduplication -/

/-- The reference-molecule search loop of Topology.add_molecule (lines
2090-2095): first key whose canonical SMILES equals the incoming molecule's,
as a position in the key list. -/
def find_reference_molecule (mol_smiles : String) : List Molecule → Option Nat
  | [] => none
  | r :: rest =>
      if mol_smiles = r.smiles then some 0
      else (find_reference_molecule mol_smiles rest).map (· + 1)

/-- Topology.add_molecule (lines 2074-2106): deduplicate by canonical SMILES,
freeze a new reference molecule when no key matches, construct a fresh
TopologyMolecule (a fresh object identity: `instId` is the current instance
count), append it to the global instance list and to its reference
molecule's instance list, and return `len(self._topology_molecules)`. -/
def Topology.add_molecule (t : Topology) (molecule : Molecule) :
    Topology × Nat :=
  let mol_smiles := molecule.smiles
  match find_reference_molecule mol_smiles t.refMols with
  | some ri =>
      let tm : TopologyMolecule := ⟨ri, t.topMols.length⟩
      let topMols' := t.topMols ++ [tm]
      let t' : Topology :=
        { refMols := t.refMols
          refInstances := t.refInstances.set ri (t.refInstances.getD ri [] ++ [tm])
          topMols := topMols' }
      (t', topMols'.length)
  | none =>
      let reference_molecule := FrozenMolecule molecule
      let ri := t.refMols.length
      let tm : TopologyMolecule := ⟨ri, t.topMols.length⟩
      let topMols' := t.topMols ++ [tm]
      let t' : Topology :=
        { refMols := t.refMols ++ [reference_molecule]
          refInstances := t.refInstances ++ [[tm]]
          topMols := topMols' }
      (t', topMols'.length)

/-- A blank Topology, as produced by `Topology._initialize`. -/
def Topology.empty : Topology :=
  ⟨[], [], []⟩

/-- A Topology built by a sequence of `add_molecule` calls on a fresh
Topology. -/
def buildTopology (molecules : List Molecule) : Topology :=
  molecules.foldl (fun t m => (t.add_molecule m).1) Topology.empty

/-! ## Chemical-environment matching (lines 1398-1449) -/

/-- A Python loop that builds a list by appending one computed element per
iteration, propagating the first raised exception: exactly `mapM` in the
`Option` monad, written out to keep the evaluation order explicit. -/
def listMapM {α β : Type} (f : α → Option β) : List α → Option (List β)
  | [] => some []
  | x :: xs =>
      match f x, listMapM f xs with
      | some y, some ys => some (y :: ys)
      | _, _ => none

/-- The innermost loop of Topology.chemical_environment_matches (lines
1440-1445): for each matched local atom index, look the topology atom up at
`atom_start_topology_index + reference_molecule_atom_index`.  A `None` start
index (impossible for an instance that is in the topology) or an assertion
failure in `Topology.atom` would crash the call, hence `none`; note that a
`None` returned by the `Topology.atom` fall-through would be appended
verbatim, so tuple entries are optional atoms. -/
def cemAtomTuple (t : Topology) (topology_molecule : TopologyMolecule)
    (reference_match : List Nat) : Option (List (Option TopologyAtom)) :=
  listMapM (fun reference_molecule_atom_index =>
    match topology_molecule.atom_start_topology_index t with
    | none => none
    | some s =>
        match t.atom ((s + reference_molecule_atom_index : Nat) : Int) with
        | .error _ => none
        | .ok ta => some ta) reference_match

/-- The middle loops of Topology.chemical_environment_matches (lines
1436-1447): for each match of the reference molecule, and for each instance
of that reference molecule, one translated tuple. -/
def cemOverMatches (t : Topology) (instances : List TopologyMolecule) :
    List (List Nat) → Option (List (List (Option TopologyAtom)))
  | [] => some []
  | reference_match :: rest =>
      match listMapM (fun tm => cemAtomTuple t tm reference_match) instances,
            cemOverMatches t instances rest with
      | some here, some there => some (here ++ there)
      | _, _ => none

/-- The outer loop of Topology.chemical_environment_matches (lines
1430-1447): reference molecules in key order, each asked once for its
matches, which are then unrolled over its instances. -/
def cemOverRefMols (t : Topology) (smarts : String) :
    List (Molecule × List TopologyMolecule) →
      Option (List (List (Option TopologyAtom)))
  | [] => some []
  | (ref_mol, instances) :: rest =>
      match cemOverMatches t instances
              (ref_mol.chemical_environment_matches smarts),
            cemOverRefMols t smarts rest with
      | some here, some there => some (here ++ there)
      | _, _ => none

/-- Topology.chemical_environment_matches (lines 1398-1449) with the query
already rendered to a SMARTS string (the `type(query) is str` branch of
lines 1421-1426). -/
def Topology.chemical_environment_matches (t : Topology) (smarts : String) :
    Option (List (List (Option TopologyAtom))) :=
  cemOverRefMols t smarts (t.refMols.zip t.refInstances)

/-- Spec-side description of the expected match list (claim C4, spec section
4.6): grouped by reference molecule in iteration order, then by match in the
order the molecule capability returned them, then by instance in insertion
order; each tuple holds the instance's atom views at the matched local
indices (global index = instance offset + local index, wrapped as a view). -/
def cemSpecMatches (smarts : String) :
    List (Molecule × List TopologyMolecule) → List (List (Option TopologyAtom))
  | [] => []
  | (ref_mol, instances) :: rest =>
      ((ref_mol.chemical_environment_matches smarts).flatMap (fun reference_match =>
        instances.map (fun tm =>
          reference_match.map (fun loc => some ⟨loc, tm⟩))))
      ++ cemSpecMatches smarts rest

/-! ## Spec-side direct sums and the construction invariant -/

/-- Direct per-instance sum over a list of instances of a per-reference
count `f`, resolved against a reference table `rms`. -/
def sumInst (rms : List Molecule) (f : Molecule → Nat)
    (L : List TopologyMolecule) : Nat :=
  (L.map (fun tm => f (rms.getD tm.refIdx default))).sum

/-- Spec-side aggregate (claim C2): `sum(instance.count for instance in
T.topology_molecules)`, the direct per-instance sum. -/
def sumInstanceCounts (f : Molecule → Nat) (t : Topology) : Nat :=
  sumInst t.refMols f t.topMols

/-- Accumulated per-instance counts of a list of instances, with respect to
an arbitrary per-instance count function. -/
def sumCnt (cnt : TopologyMolecule → Nat) (L : List TopologyMolecule) : Nat :=
  (L.map cnt).sum

/-- Structural invariant of every Topology reachable by `add_molecule` calls
from a fresh Topology: the reference table and the per-reference instance
lists are parallel; every instance's reference index is in range; instance
identities are exactly the insertion positions; every instance recorded
under a reference belongs to the global list with that reference index; and
the grouped counter computation agrees with the direct per-instance sum. -/
structure TopologyInv (t : Topology) : Prop where
  len_eq : t.refMols.length = t.refInstances.length
  ref_lt : ∀ tm ∈ t.topMols, tm.refIdx < t.refMols.length
  ids : t.topMols.map TopologyMolecule.instId = List.range t.topMols.length
  inst_mem : ∀ i : Nat, ∀ tm ∈ t.refInstances.getD i [],
    tm ∈ t.topMols ∧ tm.refIdx = i
  counts : ∀ f : Molecule → Nat,
    groupedCount f t.refMols t.refInstances = sumInst t.refMols f t.topMols

/-! ## Concrete molecules used by the witnesses -/

/-- A two-atom, one-bond molecule whose pattern capability reports the two
directed matches of a symmetric two-atom query. -/
def mA : Molecule :=
  { smiles := "[H]Cl"
    n_atoms := 2
    n_bonds := 1
    n_particles := 2
    n_virtual_sites := 0
    chemical_environment_matches := fun _ => [[0, 1], [1, 0]]
    to_networkx_val := ⟨[(0, 1), (1, 17)], [(0, 1, some 1)]⟩ }

/-- A single-carbon graph shared by the two ambiguous unique molecules of
claim C6's failing input. -/
def carbonGraph : GraphVal :=
  ⟨[(0, 6)], []⟩

/-- First of two distinct candidate molecules with indistinguishable
attributed graphs. -/
def unqMolA : Molecule :=
  { smiles := "C"
    n_atoms := 1
    n_bonds := 0
    n_particles := 1
    n_virtual_sites := 0
    chemical_environment_matches := fun _ => []
    to_networkx_val := carbonGraph }

/-- Second of the two: a different candidate (different fingerprint) whose
attributed graph is identical to `unqMolA`'s. -/
def unqMolB : Molecule :=
  { smiles := "[CH4]"
    n_atoms := 1
    n_bonds := 0
    n_particles := 1
    n_virtual_sites := 0
    chemical_environment_matches := fun _ => []
    to_networkx_val := carbonGraph }

/-! ## Lemmas about the backing store -/

theorem storeGet_set_self {κ V : Type} [DecidableEq κ]
    (s : List (κ × V)) (k : κ) (v : V) :
    storeGet (storeSet s k v) k = some v := by
  induction s with
  | nil => simp [storeGet, storeSet]
  | cons p rest ih =>
      by_cases h : p.1 = k
      · simp [storeGet, storeSet, h]
      · simp [storeGet, storeSet, h, ih]

theorem storeGet_set_ne {κ V : Type} [DecidableEq κ]
    (s : List (κ × V)) (k k' : κ) (v : V) (hne : k' ≠ k) :
    storeGet (storeSet s k v) k' = storeGet s k' := by
  have hkk : ¬ (k = k') := fun h => hne h.symm
  induction s with
  | nil => simp [storeGet, storeSet, hkk]
  | cons p rest ih =>
      by_cases h : p.1 = k
      · subst h
        simp [storeGet, storeSet, hkk]
      · simp only [storeSet, if_neg h]
        by_cases h' : p.1 = k'
        · simp [storeGet, h']
        · simp [storeGet, h', ih]

theorem storeGet_none_of_not_mem {κ V : Type} [DecidableEq κ]
    (s : List (κ × V)) (k : κ) (h : k ∉ s.map Prod.fst) :
    storeGet s k = none := by
  induction s with
  | nil => rfl
  | cons p rest ih =>
      simp only [List.map_cons, List.mem_cons] at h
      push_neg at h
      have h1 : ¬ (p.1 = k) := fun hh => h.1 hh.symm
      simp [storeGet, h1, ih h.2]

theorem storeDel_of_get_some {κ V : Type} [DecidableEq κ]
    (s : List (κ × V)) (k : κ) (v : V) (h : storeGet s k = some v) :
    ∃ s', storeDel s k = some s' := by
  induction s with
  | nil => simp [storeGet] at h
  | cons p rest ih =>
      by_cases hk : p.1 = k
      · exact ⟨rest, by simp [storeDel, hk]⟩
      · simp only [storeGet, if_neg hk] at h
        obtain ⟨r, hr⟩ := ih h
        exact ⟨p :: r, by simp [storeDel, hk, hr]⟩

theorem storeDel_get_self {κ V : Type} [DecidableEq κ] (k : κ) :
    ∀ (s s' : List (κ × V)), storeKeysNodup s →
      storeDel s k = some s' → storeGet s' k = none
  | [], s', _, h => by simp [storeDel] at h
  | p :: rest, s', hnd, h => by
      have hnd' : storeKeysNodup rest := (List.nodup_cons.mp hnd).2
      by_cases hk : p.1 = k
      · simp only [storeDel, if_pos hk] at h
        cases h
        have : k ∉ rest.map Prod.fst := hk ▸ (List.nodup_cons.mp hnd).1
        exact storeGet_none_of_not_mem rest k this
      · simp only [storeDel, if_neg hk] at h
        cases hr : storeDel rest k with
        | none => simp [hr] at h
        | some r =>
            rw [hr] at h
            simp only [Option.map_some'] at h
            cases h
            simp [storeGet, hk, storeDel_get_self k rest r hnd' hr]

theorem storeDel_get_ne {κ V : Type} [DecidableEq κ] (k k' : κ)
    (hne : k' ≠ k) :
    ∀ (s s' : List (κ × V)),
      storeDel s k = some s' → storeGet s' k' = storeGet s k'
  | [], s', h => by simp [storeDel] at h
  | p :: rest, s', h => by
      by_cases hk : p.1 = k
      · simp only [storeDel, if_pos hk] at h
        cases h
        have : ¬ p.1 = k' := fun hh => hne (hh ▸ hk ▸ rfl)
        simp [storeGet, this]
      · simp only [storeDel, if_neg hk] at h
        cases hr : storeDel rest k with
        | none => simp [hr] at h
        | some r =>
            rw [hr] at h
            simp only [Option.map_some'] at h
            cases h
            by_cases hp : p.1 = k'
            · simp [storeGet, hp]
            · simp [storeGet, hp, storeDel_get_ne k k' hne rest r hr]

theorem storeGet_set_pair {κ V : Type} [DecidableEq κ]
    (s : List (κ × V)) (a b : κ) (v : V) :
    storeGet (storeSet (storeSet s a v) b v) a = some v := by
  by_cases h : a = b
  · subst h
    exact storeGet_set_self ..
  · rw [storeGet_set_ne _ _ _ _ h]
    exact storeGet_set_self ..

/-! ## Claims C7 and C8: canonical bonded-term keys -/

/-- C7: a ValenceDict key tuple `(a0, ..., an)` is canonicalized to its
reversal exactly when `a0 > an` and kept as-is otherwise, so `(3,1)`/`(1,3)`
and `(1,2,3)`/`(3,2,1)` address the same entry, for insertion, lookup and
deletion alike. -/
theorem claim_C7 :
    (∀ (a0 an : Nat) (mid : List Nat),
        ValenceDict.keytransform (a0 :: mid ++ [an]) =
          if a0 > an then (a0 :: mid ++ [an]).reverse else a0 :: mid ++ [an])
    ∧ ValenceDict.keytransform [3, 1] = ValenceDict.keytransform [1, 3]
    ∧ ValenceDict.keytransform [1, 2, 3] = ValenceDict.keytransform [3, 2, 1]
    ∧ ∀ (V : Type) (d : List (List Nat × V)) (v : V) (k k' : List Nat),
        ValenceDict.keytransform k = ValenceDict.keytransform k' →
          ValenceDict.getItem d k = ValenceDict.getItem d k' ∧
          ValenceDict.setItem d k v = ValenceDict.setItem d k' v ∧
          ValenceDict.delItem d k = ValenceDict.delItem d k' := by
  refine ⟨?_, by decide, by decide, ?_⟩
  · intro a0 an mid
    have hlast : ∀ (l : List Nat) (d : Nat), (l ++ [an]).getLastD d = an := by
      intro l
      induction l with
      | nil => intro d; rfl
      | cons x xs ih =>
          intro d
          rw [List.cons_append, List.getLastD_cons]
          exact ih x
    rw [show ValenceDict.keytransform (a0 :: mid ++ [an])
          = if an < a0 then (a0 :: mid ++ [an]).reverse else a0 :: mid ++ [an] by
        unfold ValenceDict.keytransform
        rw [hlast (a0 :: mid) 0]
        rfl]
  · intro V d v k k' h
    exact ⟨by simp [ValenceDict.getItem, h], by simp [ValenceDict.setItem, h],
      by simp [ValenceDict.delItem, h]⟩

theorem claim_C7_witness :
    ValenceDict.getItem [([1, 3], (7 : Nat))] [3, 1] =
      ValenceDict.getItem [([1, 3], (7 : Nat))] [1, 3] :=
  (claim_C7.2.2.2 Nat [([1, 3], 7)] 7 [3, 1] [1, 3] (by decide)).1

theorem sort3_swap12 (a b c : Nat) : sort3 a b c = sort3 b a c := by
  unfold sort3
  split_ifs <;> simp_all only [Prod.mk.injEq, and_true, true_and] <;> omega

theorem sort3_swap23 (a b c : Nat) : sort3 a b c = sort3 a c b := by
  unfold sort3
  split_ifs <;> simp_all only [Prod.mk.injEq, and_true, true_and] <;> omega

theorem sort3_perm (a b c : Nat) :
    sort3 a b c = sort3 a c b ∧ sort3 a b c = sort3 b a c ∧
    sort3 a b c = sort3 b c a ∧ sort3 a b c = sort3 c a b ∧
    sort3 a b c = sort3 c b a := by
  refine ⟨sort3_swap23 a b c, sort3_swap12 a b c, ?_, ?_, ?_⟩
  · exact (sort3_swap12 a b c).trans (sort3_swap23 b a c)
  · exact (sort3_swap23 a b c).trans (sort3_swap12 a c b)
  · exact ((sort3_swap12 a b c).trans (sort3_swap23 b a c)).trans
      (sort3_swap12 b c a)

/-- C8: an ImproperDict key `(a0, center, a2, a3)` is canonicalized to
`(sorted[0], center, sorted[1], sorted[2])` with the center kept in position
1, so every permutation of the three non-center indices addresses the same
entry; in particular `(5,2,7,1)`, `(1,2,7,5)` and `(7,2,1,5)` all
canonicalize to `(1,2,5,7)`. -/
theorem claim_C8 :
    (∀ (a0 center a2 a3 : Nat),
        ImproperDict.keytransform (a0, center, a3, a2) =
          ImproperDict.keytransform (a0, center, a2, a3)
      ∧ ImproperDict.keytransform (a2, center, a0, a3) =
          ImproperDict.keytransform (a0, center, a2, a3)
      ∧ ImproperDict.keytransform (a2, center, a3, a0) =
          ImproperDict.keytransform (a0, center, a2, a3)
      ∧ ImproperDict.keytransform (a3, center, a0, a2) =
          ImproperDict.keytransform (a0, center, a2, a3)
      ∧ ImproperDict.keytransform (a3, center, a2, a0) =
          ImproperDict.keytransform (a0, center, a2, a3))
    ∧ ImproperDict.keytransform (5, 2, 7, 1) = (1, 2, 5, 7)
    ∧ ImproperDict.keytransform (1, 2, 7, 5) = (1, 2, 5, 7)
    ∧ ImproperDict.keytransform (7, 2, 1, 5) = (1, 2, 5, 7)
    ∧ ∀ (V : Type) (d : List ((Nat × Nat × Nat × Nat) × V)) (v : V)
        (k k' : Nat × Nat × Nat × Nat),
        ImproperDict.keytransform k = ImproperDict.keytransform k' →
          ImproperDict.getItem d k = ImproperDict.getItem d k' ∧
          ImproperDict.setItem d k v = ImproperDict.setItem d k' v ∧
          ImproperDict.delItem d k = ImproperDict.delItem d k' := by
  refine ⟨?_, by decide, by decide, by decide, ?_⟩
  · intro a0 center a2 a3
    obtain ⟨h1, h2, h3, h4, h5⟩ := sort3_perm a0 a2 a3
    refine ⟨?_, ?_, ?_, ?_, ?_⟩ <;>
      simp only [ImproperDict.keytransform]
    · rw [← h1]
    · rw [← h2]
    · rw [show sort3 a2 a3 a0 = sort3 a0 a2 a3 from h3.symm]
    · rw [show sort3 a3 a0 a2 = sort3 a0 a2 a3 from h4.symm]
    · rw [show sort3 a3 a2 a0 = sort3 a0 a2 a3 from h5.symm]
  · intro V d v k k' h
    exact ⟨by simp [ImproperDict.getItem, h], by simp [ImproperDict.setItem, h],
      by simp [ImproperDict.delItem, h]⟩

theorem claim_C8_witness :
    ImproperDict.getItem [(((1, 2, 5, 7) : Nat × Nat × Nat × Nat), (42 : Nat))]
        (5, 2, 7, 1) =
      ImproperDict.getItem [(((1, 2, 5, 7) : Nat × Nat × Nat × Nat), (42 : Nat))]
        (1, 2, 7, 5) :=
  (claim_C8.2.2.2.2 Nat [((1, 2, 5, 7), 42)] 42 (5, 2, 7, 1) (1, 2, 7, 5)
    (by decide)).1

/-! ## Claims C5 and C10: constraint records -/

/-- C5: after `add_constraint(i,j,True)` succeeds, `is_constrained(i,j)` is
the pending sentinel; `add_constraint(i,j,d)` with a concrete distance always
succeeds (also overwriting a pending constraint) and `is_constrained` then
returns `d`; `add_constraint(i,j,False)` on an existing constraint succeeds
and `is_constrained` then returns the not-constrained sentinel; and
`add_constraint(i,j,True)` on an already-pending pair raises a conflict — in
the embedding an `.error` result, produced before any mutation, so the map
is unchanged. -/
theorem claim_C5 :
    (∀ (m : CMap) (i j : Nat) (m' : CMap),
        Topology.add_constraint m i j .pending = .ok m' →
          Topology.is_constrained m' i j = .pending)
    ∧ (∀ (m : CMap) (i j : Nat) (q : ℚ),
        ∃ m', Topology.add_constraint m i j (.dist q) = .ok m' ∧
          Topology.is_constrained m' i j = .dist q)
    ∧ (∀ (m : CMap) (i j : Nat), storeKeysNodup m → i ≠ j →
        (∃ d₀, storeGet m (i, j) = some d₀) →
        (∃ d₁, storeGet m (j, i) = some d₁) →
        ∃ m', Topology.add_constraint m i j .notConstrained = .ok m' ∧
          Topology.is_constrained m' i j = .notConstrained)
    ∧ (∀ (m : CMap) (i j : Nat),
        Topology.is_constrained m i j = .pending →
          ∃ msg, Topology.add_constraint m i j .pending = .error msg) := by
  refine ⟨?_, ?_, ?_, ?_⟩
  · intro m i j m' hok
    cases hget : storeGet m (i, j) with
    | none =>
        simp only [Topology.add_constraint, hget, Except.ok.injEq] at hok
        subst hok
        simp [Topology.is_constrained, storeGet_set_pair]
    | some existing =>
        cases existing with
        | pending =>
            simp [Topology.add_constraint, hget, CVal.is_quantity] at hok
        | notConstrained =>
            simp [Topology.add_constraint, hget, CVal.is_quantity] at hok
            subst hok
            simp [Topology.is_constrained, storeGet_set_pair]
        | dist qq =>
            simp [Topology.add_constraint, hget, CVal.is_quantity] at hok
  · intro m i j q
    cases hget : storeGet m (i, j) with
    | none =>
        refine ⟨storeSet (storeSet m (i, j) (.dist q)) (j, i) (.dist q), ?_, ?_⟩
        · simp only [Topology.add_constraint, hget]
        · simp [Topology.is_constrained, storeGet_set_pair]
    | some existing =>
        refine ⟨storeSet (storeSet m (i, j) (.dist q)) (j, i) (.dist q), ?_, ?_⟩
        · simp [Topology.add_constraint, hget]
        · simp [Topology.is_constrained, storeGet_set_pair]
  · intro m i j hnd hij hex1 hex2
    obtain ⟨d₀, h₀⟩ := hex1
    obtain ⟨d₁, h₁⟩ := hex2
    have hij' : ((i, j) : Nat × Nat) ≠ (j, i) := by
      intro hh
      exact hij (congrArg Prod.fst hh)
    have hji' : ((j, i) : Nat × Nat) ≠ (i, j) := hij'.symm
    obtain ⟨m1, hm1⟩ := storeDel_of_get_some m (i, j) d₀ h₀
    have hget1 : storeGet m1 (j, i) = some d₁ :=
      (storeDel_get_ne (i, j) (j, i) hji' m m1 hm1).trans h₁
    obtain ⟨m2, hm2⟩ := storeDel_of_get_some m1 (j, i) d₁ hget1
    refine ⟨m2, ?_, ?_⟩
    · simp [Topology.add_constraint, h₀, hm1, hm2]
    · have h2 : storeGet m2 (i, j) = storeGet m1 (i, j) :=
        storeDel_get_ne (j, i) (i, j) hij' m1 m2 hm2
      have h3 : storeGet m1 (i, j) = none :=
        storeDel_get_self (i, j) m m1 hnd hm1
      rw [Topology.is_constrained, h2, h3]
  · intro m i j hp
    have hget : storeGet m (i, j) = some .pending := by
      rw [Topology.is_constrained] at hp
      cases hget : storeGet m (i, j) with
      | none => rw [hget] at hp; cases hp
      | some v => rw [hget] at hp; cases hp; rfl
    have herr : Topology.add_constraint m i j .pending = .error
        "already constrained with unspecified distance but attempting to override with unspecified distance" := by
      simp [Topology.add_constraint, hget, CVal.is_quantity]
    exact ⟨_, herr⟩

theorem claim_C5_witness :
    Topology.is_constrained [((0, 1), CVal.pending), ((1, 0), CVal.pending)] 0 1
        = CVal.pending
    ∧ (∃ m', Topology.add_constraint [] 0 1 (.dist 2) = .ok m' ∧
        Topology.is_constrained m' 0 1 = .dist 2)
    ∧ (∃ m', Topology.add_constraint
          [((0, 1), CVal.pending), ((1, 0), CVal.pending)] 0 1 .notConstrained
          = .ok m' ∧ Topology.is_constrained m' 0 1 = .notConstrained)
    ∧ (∃ msg, Topology.add_constraint
          [((0, 1), CVal.pending), ((1, 0), CVal.pending)] 0 1 .pending
          = .error msg) :=
  ⟨claim_C5.1 [] 0 1 [((0, 1), CVal.pending), ((1, 0), CVal.pending)] (by rfl),
   claim_C5.2.1 [] 0 1 2,
   claim_C5.2.2.1 [((0, 1), CVal.pending), ((1, 0), CVal.pending)] 0 1
     (by unfold storeKeysNodup; decide) (by decide)
     ⟨CVal.pending, rfl⟩ ⟨CVal.pending, rfl⟩,
   claim_C5.2.2.2 [((0, 1), CVal.pending), ((1, 0), CVal.pending)] 0 1 (by rfl)⟩

/-- C10: removing a constraint from a pair that is not constrained in either
direction does not raise and deletes nothing: the guard on the existing-pair
branch fails, so control falls through to the unconditional assignments,
which store the value `False` under both `(i,j)` and `(j,i)`; afterwards
`is_constrained` returns the not-constrained sentinel for both orders even
though both pairs now appear among the keys, and every other key is
untouched. -/
theorem claim_C10 (m : CMap) (i j : Nat)
    (hni : storeGet m (i, j) = none) (_hnj : storeGet m (j, i) = none) :
    ∃ m', Topology.add_constraint m i j .notConstrained = .ok m'
      ∧ storeGet m' (i, j) = some .notConstrained
      ∧ storeGet m' (j, i) = some .notConstrained
      ∧ Topology.is_constrained m' i j = .notConstrained
      ∧ Topology.is_constrained m' j i = .notConstrained
      ∧ ∀ k : Nat × Nat, k ≠ (i, j) → k ≠ (j, i) → storeGet m' k = storeGet m k := by
  refine ⟨storeSet (storeSet m (i, j) .notConstrained) (j, i) .notConstrained,
    ?_, ?_, ?_, ?_, ?_, ?_⟩
  · rw [Topology.add_constraint, hni]
  · exact storeGet_set_pair ..
  · exact storeGet_set_self ..
  · rw [Topology.is_constrained, storeGet_set_pair]
  · rw [Topology.is_constrained, storeGet_set_self]
  · intro k hk1 hk2
    rw [storeGet_set_ne _ _ _ _ hk2, storeGet_set_ne _ _ _ _ hk1]

theorem claim_C10_witness :
    ∃ m', Topology.add_constraint [] 0 1 .notConstrained = .ok m'
      ∧ storeGet m' (0, 1) = some .notConstrained
      ∧ storeGet m' (1, 0) = some .notConstrained
      ∧ Topology.is_constrained m' 0 1 = .notConstrained
      ∧ Topology.is_constrained m' 1 0 = .notConstrained
      ∧ ∀ k : Nat × Nat, k ≠ (0, 1) → k ≠ (1, 0) →
          storeGet m' k = storeGet ([] : CMap) k :=
  claim_C10 [] 0 1 rfl rfl

/-! ## Claim C6: ambiguous unique molecules in from_openmm -/

/-- C6: contrary to the claim, the graph phase of `from_openmm` can never
raise the indistinguishable-graphs conflict.  The membership test
`unq_graph in graph_to_unq_mol.keys()` compares `networkx.Graph` objects by
identity, and every `to_networkx()` call returns a fresh object, so the test
is always false — even for two distinct candidates with identical attributed
graphs, as the concrete evaluation shows: the phase returns normally with
both ambiguous candidates registered. -/
theorem claim_C6 :
    (∀ (mols : List Molecule) (counter : Nat) (acc : List (NxGraph × Molecule)),
        (∀ p ∈ acc, p.1.objId < counter) →
          ∃ res, from_openmm_graph_phase mols counter acc = .ok res)
    ∧ unqMolA.smiles ≠ unqMolB.smiles
    ∧ unqMolA.to_networkx_val = unqMolB.to_networkx_val
    ∧ from_openmm_graph_phase [unqMolA, unqMolB] 0 [] =
        .ok [(⟨carbonGraph, 1⟩, unqMolA), (⟨carbonGraph, 3⟩, unqMolB)] := by
  refine ⟨?_, by decide, rfl, rfl⟩
  intro mols
  induction mols with
  | nil => intro counter acc _; exact ⟨acc, rfl⟩
  | cons unq_mol rest ih =>
      intro counter acc hlt
      have hany : acc.any (fun p => p.1.objId == counter) = false := by
        rw [List.any_eq_false]
        intro p hp
        simp only [beq_iff_eq]
        exact Nat.ne_of_lt (hlt p hp)
      have hrec := ih (counter + 2)
        (acc ++ [(⟨unq_mol.to_networkx_val, counter + 1⟩, unq_mol)])
        (by
          intro p hp
          rcases List.mem_append.mp hp with hp | hp
          · exact Nat.lt_trans (hlt p hp) (by omega)
          · rcases List.mem_singleton.mp hp with rfl
            show counter + 1 < counter + 2
            omega)
      obtain ⟨res, hres⟩ := hrec
      refine ⟨res, ?_⟩
      rw [from_openmm_graph_phase]
      simp only [hany]
      exact hres

theorem claim_C6_witness :
    ∃ res, from_openmm_graph_phase [unqMolA, unqMolB] 5
        [(⟨carbonGraph, 0⟩, unqMolA)] = .ok res :=
  claim_C6.1 [unqMolA, unqMolB] 5 [(⟨carbonGraph, 0⟩, unqMolA)]
    (by
      intro p hp
      rcases List.mem_singleton.mp hp with rfl
      decide)

/-! ## List lemmas used by the Topology development -/

theorem listGetD_set_self {α : Type} :
    ∀ (l : List α) (i : Nat) (x d : α), i < l.length →
      (l.set i x).getD i d = x
  | [], _, _, _, h => absurd h (by simp)
  | _ :: _, 0, _, _, _ => rfl
  | a :: l, i + 1, x, d, h =>
      listGetD_set_self l i x d (by simpa using h)

theorem listGetD_set_ne {α : Type} :
    ∀ (l : List α) (i j : Nat) (x d : α), i ≠ j →
      (l.set i x).getD j d = l.getD j d
  | [], _, _, _, _, _ => rfl
  | _ :: _, 0, 0, _, _, h => absurd rfl h
  | _ :: _, 0, _ + 1, _, _, _ => rfl
  | _ :: _, _ + 1, 0, _, _, _ => rfl
  | _ :: l, i + 1, j + 1, x, d, h =>
      listGetD_set_ne l i j x d (fun hh => h (by omega))

theorem listGetD_append_left {α : Type} :
    ∀ (l l' : List α) (i : Nat) (d : α), i < l.length →
      (l ++ l').getD i d = l.getD i d
  | [], _, _, _, h => absurd h (by simp)
  | _ :: _, _, 0, _, _ => rfl
  | _ :: l, l', i + 1, d, h =>
      listGetD_append_left l l' i d (by simpa using h)

theorem listGetD_append_len {α : Type} :
    ∀ (l : List α) (x d : α), (l ++ [x]).getD l.length d = x
  | [], _, _ => rfl
  | _ :: l, x, d => listGetD_append_len l x d

theorem listGetD_ge {α : Type} :
    ∀ (l : List α) (i : Nat) (d : α), l.length ≤ i → l.getD i d = d
  | [], _, _, _ => rfl
  | _ :: _, 0, _, h => absurd h (by simp)
  | _ :: l, i + 1, d, h => listGetD_ge l i d (by simpa using h)

theorem zip_mem_get {α β : Type} :
    ∀ (l₁ : List α) (l₂ : List β) (p : α × β), p ∈ l₁.zip l₂ →
      ∃ (i : Nat) (h₁ : i < l₁.length) (h₂ : i < l₂.length),
        l₁.get ⟨i, h₁⟩ = p.1 ∧ l₂.get ⟨i, h₂⟩ = p.2
  | [], _, p, h => absurd h (by simp)
  | _ :: _, [], p, h => absurd h (by simp)
  | a :: l₁, b :: l₂, p, h => by
      rcases List.mem_cons.mp h with h | h
      · subst h
        exact ⟨0, by simp, by simp, rfl, rfl⟩
      · obtain ⟨i, h₁, h₂, hh₁, hh₂⟩ := zip_mem_get l₁ l₂ p h
        exact ⟨i + 1, by simpa using h₁, by simpa using h₂, hh₁, hh₂⟩

/-! ## Counter lemmas -/

theorem sumCnt_append (cnt : TopologyMolecule → Nat)
    (L₁ L₂ : List TopologyMolecule) :
    sumCnt cnt (L₁ ++ L₂) = sumCnt cnt L₁ + sumCnt cnt L₂ := by
  simp [sumCnt]

theorem sumCnt_cons (cnt : TopologyMolecule → Nat) (tm : TopologyMolecule)
    (L : List TopologyMolecule) :
    sumCnt cnt (tm :: L) = cnt tm + sumCnt cnt L := by
  simp [sumCnt]

theorem groupedCount_set_append (f : Molecule → Nat) :
    ∀ (rms : List Molecule) (iss : List (List TopologyMolecule)) (ri : Nat)
      (x : TopologyMolecule), ri < rms.length → rms.length = iss.length →
      groupedCount f rms (iss.set ri (iss.getD ri [] ++ [x]))
        = groupedCount f rms iss + f (rms.getD ri default)
  | [], _, _, _, hri, _ => absurd hri (by simp)
  | _ :: _, [], _, _, _, hlen => by simp at hlen
  | rm :: rms, l :: iss, 0, x, _, _ => by
      simp only [List.getD_cons_zero, List.set, groupedCount, List.length_append,
        List.length_singleton]
      ring
  | rm :: rms, l :: iss, ri + 1, x, hri, hlen => by
      simp only [List.getD_cons_succ, List.set, groupedCount]
      rw [groupedCount_set_append f rms iss ri x (by simpa using hri)
        (by simpa using hlen)]
      omega

theorem groupedCount_cons (f : Molecule → Nat) (rm : Molecule)
    (rms : List Molecule) (insts : List TopologyMolecule)
    (iss : List (List TopologyMolecule)) :
    groupedCount f (rm :: rms) (insts :: iss)
      = f rm * insts.length + groupedCount f rms iss := rfl

theorem groupedCount_append (f : Molecule → Nat) :
    ∀ (rms : List Molecule) (iss : List (List TopologyMolecule)) (m : Molecule)
      (x : TopologyMolecule), rms.length = iss.length →
      groupedCount f (rms ++ [m]) (iss ++ [[x]])
        = groupedCount f rms iss + f m
  | [], [], m, x, _ => by simp [groupedCount]
  | [], _ :: _, _, _, hlen => by simp at hlen
  | _ :: _, [], _, _, hlen => by simp at hlen
  | rm :: rms, l :: iss, m, x, hlen => by
      rw [List.cons_append, List.cons_append, groupedCount_cons,
        groupedCount_cons, groupedCount_append f rms iss m x (by simpa using hlen)]
      omega

theorem sumInst_append_one (rms : List Molecule) (f : Molecule → Nat)
    (L : List TopologyMolecule) (tm : TopologyMolecule) :
    sumInst rms f (L ++ [tm]) = sumInst rms f L + f (rms.getD tm.refIdx default) := by
  simp [sumInst]

theorem sumInst_refMols_append (rms : List Molecule) (m : Molecule)
    (f : Molecule → Nat) (L : List TopologyMolecule)
    (h : ∀ tm ∈ L, tm.refIdx < rms.length) :
    sumInst (rms ++ [m]) f L = sumInst rms f L := by
  unfold sumInst
  congr 1
  apply List.map_congr_left
  intro tm hmem
  rw [listGetD_append_left rms [m] tm.refIdx default (h tm hmem)]

theorem find_reference_molecule_lt (s : String) :
    ∀ (l : List Molecule) (i : Nat),
      find_reference_molecule s l = some i → i < l.length
  | [], i, h => by simp [find_reference_molecule] at h
  | r :: rest, i, h => by
      by_cases hs : s = r.smiles
      · simp only [find_reference_molecule, if_pos hs, Option.some.injEq] at h
        subst h
        simp
      · simp only [find_reference_molecule, if_neg hs] at h
        cases hf : find_reference_molecule s rest with
        | none => rw [hf] at h; cases h
        | some j =>
            rw [hf] at h
            simp only [Option.map_some', Option.some.injEq] at h
            subst h
            have := find_reference_molecule_lt s rest j hf
            simp only [List.length_cons]
            omega

/-! ## The add_molecule step, in equation form -/

theorem add_molecule_found (t : Topology) (m : Molecule) (ri : Nat)
    (hf : find_reference_molecule m.smiles t.refMols = some ri) :
    t.add_molecule m =
      ({ refMols := t.refMols
         refInstances := t.refInstances.set ri
           (t.refInstances.getD ri [] ++ [⟨ri, t.topMols.length⟩])
         topMols := t.topMols ++ [⟨ri, t.topMols.length⟩] },
       t.topMols.length + 1) := by
  simp only [Topology.add_molecule, hf]
  simp

theorem add_molecule_new (t : Topology) (m : Molecule)
    (hf : find_reference_molecule m.smiles t.refMols = none) :
    t.add_molecule m =
      ({ refMols := t.refMols ++ [FrozenMolecule m]
         refInstances := t.refInstances ++ [[⟨t.refMols.length, t.topMols.length⟩]]
         topMols := t.topMols ++ [⟨t.refMols.length, t.topMols.length⟩] },
       t.topMols.length + 1) := by
  simp only [Topology.add_molecule, hf]
  simp

/-! ## The construction invariant -/

theorem topologyInv_empty : TopologyInv Topology.empty := by
  refine ⟨rfl, ?_, rfl, ?_, ?_⟩
  · intro tm hmem
    simp [Topology.empty] at hmem
  · intro i tm hmem
    simp [Topology.empty, List.getD_nil] at hmem
  · intro f
    rfl

theorem ids_append (L : List TopologyMolecule) (tm : TopologyMolecule)
    (hid : tm.instId = L.length)
    (hids : L.map TopologyMolecule.instId = List.range L.length) :
    (L ++ [tm]).map TopologyMolecule.instId = List.range (L ++ [tm]).length := by
  rw [List.map_append, hids, List.length_append]
  simp [List.range_succ, hid]

theorem topologyInv_add (t : Topology) (m : Molecule) (h : TopologyInv t) :
    TopologyInv (t.add_molecule m).1 := by
  cases hf : find_reference_molecule m.smiles t.refMols with
  | some ri =>
      have hri : ri < t.refMols.length := find_reference_molecule_lt _ _ _ hf
      rw [add_molecule_found t m ri hf]
      refine ⟨?_, ?_, ?_, ?_, ?_⟩
      · simp [h.len_eq]
      · intro tm' hmem
        rcases List.mem_append.mp hmem with hmem | hmem
        · exact h.ref_lt tm' hmem
        · rcases List.mem_singleton.mp hmem with rfl
          exact hri
      · exact ids_append t.topMols _ rfl h.ids
      · intro i tm' hmem
        by_cases hi : i = ri
        · subst hi
          rw [listGetD_set_self _ _ _ _ (h.len_eq ▸ hri)] at hmem
          rcases List.mem_append.mp hmem with hmem | hmem
          · obtain ⟨hm', hidx⟩ := h.inst_mem i tm' hmem
            exact ⟨List.mem_append.mpr (Or.inl hm'), hidx⟩
          · rcases List.mem_singleton.mp hmem with rfl
            exact ⟨List.mem_append.mpr (Or.inr (List.mem_singleton.mpr rfl)), rfl⟩
        · rw [listGetD_set_ne _ _ _ _ _ (fun hh => hi hh.symm)] at hmem
          obtain ⟨hm', hidx⟩ := h.inst_mem i tm' hmem
          exact ⟨List.mem_append.mpr (Or.inl hm'), hidx⟩
      · intro f
        show groupedCount f t.refMols
            (t.refInstances.set ri (t.refInstances.getD ri [] ++ [⟨ri, t.topMols.length⟩]))
          = sumInst t.refMols f (t.topMols ++ [⟨ri, t.topMols.length⟩])
        rw [groupedCount_set_append f t.refMols t.refInstances ri _ hri h.len_eq,
          h.counts f, sumInst_append_one]
  | none =>
      rw [add_molecule_new t m hf]
      refine ⟨?_, ?_, ?_, ?_, ?_⟩
      · simp [h.len_eq]
      · intro tm' hmem
        rcases List.mem_append.mp hmem with hmem | hmem
        · have := h.ref_lt tm' hmem
          simp only [List.length_append, List.length_singleton]
          omega
        · rcases List.mem_singleton.mp hmem with rfl
          simp
      · exact ids_append t.topMols _ rfl h.ids
      · intro i tm' hmem
        rcases Nat.lt_trichotomy i t.refInstances.length with hi | hi | hi
        · rw [listGetD_append_left _ _ _ _ hi] at hmem
          obtain ⟨hm', hidx⟩ := h.inst_mem i tm' hmem
          exact ⟨List.mem_append.mpr (Or.inl hm'), hidx⟩
        · rw [hi, listGetD_append_len] at hmem
          rcases List.mem_singleton.mp hmem with rfl
          refine ⟨List.mem_append.mpr (Or.inr (List.mem_singleton.mpr rfl)), ?_⟩
          rw [hi]
          exact h.len_eq
        · rw [listGetD_ge _ _ _ (by simp; omega)] at hmem
          simp at hmem
      · intro f
        show groupedCount f (t.refMols ++ [FrozenMolecule m])
            (t.refInstances ++ [[⟨t.refMols.length, t.topMols.length⟩]])
          = sumInst (t.refMols ++ [FrozenMolecule m]) f
              (t.topMols ++ [⟨t.refMols.length, t.topMols.length⟩])
        rw [groupedCount_append f _ _ _ _ h.len_eq, sumInst_append_one,
          sumInst_refMols_append _ _ _ _ h.ref_lt, h.counts f]
        have : ((t.refMols ++ [FrozenMolecule m]).getD t.refMols.length default)
            = FrozenMolecule m := listGetD_append_len ..
        rw [this]

theorem topologyInv_foldl :
    ∀ (ms : List Molecule) (t : Topology), TopologyInv t →
      TopologyInv (ms.foldl (fun t m => (t.add_molecule m).1) t)
  | [], _, h => h
  | m :: ms, t, h => topologyInv_foldl ms _ (topologyInv_add t m h)

theorem topologyInv_build (ms : List Molecule) : TopologyInv (buildTopology ms) :=
  topologyInv_foldl ms Topology.empty topologyInv_empty

/-! ## Claim C2: grouped counters agree with direct per-instance sums -/

/-- C2: on every Topology built by `add_molecule` calls, the grouped
aggregate counters (per-reference count times instance multiplicity, summed
over reference molecules) equal the direct per-instance sums over
`topology_molecules`, for atoms, bonds, particles and virtual sites. -/
theorem claim_C2 (ms : List Molecule) :
    (buildTopology ms).n_atoms
        = ((buildTopology ms).topMols.map
            (fun tm => tm.n_atoms (buildTopology ms))).sum
    ∧ (buildTopology ms).n_bonds
        = ((buildTopology ms).topMols.map
            (fun tm => tm.n_bonds (buildTopology ms))).sum
    ∧ (buildTopology ms).n_particles
        = ((buildTopology ms).topMols.map
            (fun tm => tm.n_particles (buildTopology ms))).sum
    ∧ (buildTopology ms).n_virtual_sites
        = ((buildTopology ms).topMols.map
            (fun tm => tm.n_virtual_sites (buildTopology ms))).sum := by
  have h := topologyInv_build ms
  exact ⟨h.counts Molecule.n_atoms, h.counts Molecule.n_bonds,
    h.counts Molecule.n_particles, h.counts Molecule.n_virtual_sites⟩

/-! ## Claim C3: deduplicated repeated insertion -/

theorem add_molecule_ret (t : Topology) (m : Molecule) :
    (t.add_molecule m).2 = t.topMols.length + 1 := by
  cases hf : find_reference_molecule m.smiles t.refMols with
  | some ri => rw [add_molecule_found t m ri hf]
  | none => rw [add_molecule_new t m hf]

theorem buildTopology_append (l : List Molecule) (m : Molecule) :
    buildTopology (l ++ [m]) = ((buildTopology l).add_molecule m).1 := by
  unfold buildTopology
  rw [List.foldl_append]
  rfl

theorem buildTopology_replicate (m : Molecule) :
    ∀ N, 1 ≤ N →
      buildTopology (List.replicate N m) =
        { refMols := [FrozenMolecule m]
          refInstances := [(List.range N).map (fun i => ⟨0, i⟩)]
          topMols := (List.range N).map (fun i => ⟨0, i⟩) } := by
  intro N hN
  induction N, hN using Nat.le_induction with
  | base => rfl
  | succ N hN ih =>
      have hfind : find_reference_molecule m.smiles [FrozenMolecule m] = some 0 := by
        simp [find_reference_molecule, FrozenMolecule]
      rw [List.replicate_succ', buildTopology_append, ih,
        add_molecule_found _ m 0 hfind]
      simp [List.range_succ]

/-- C3: adding the same molecule N times to a fresh Topology yields exactly
one reference molecule and N topology-molecule instances, and the i-th
`add_molecule` call returns the 1-based instance count i after that
insertion. -/
theorem claim_C3 (m : Molecule) (N : Nat) (hN : 1 ≤ N) :
    (buildTopology (List.replicate N m)).n_reference_molecules = 1
    ∧ (buildTopology (List.replicate N m)).n_molecules = N
    ∧ ∀ i, 1 ≤ i → i ≤ N →
        ((buildTopology (List.replicate (i - 1) m)).add_molecule m).2 = i := by
  refine ⟨?_, ?_, ?_⟩
  · rw [buildTopology_replicate m N hN]
    rfl
  · rw [buildTopology_replicate m N hN]
    show ((List.range N).map _).length = N
    simp
  · intro i h1 hiN
    rcases Nat.lt_or_ge i 2 with hi | hi
    · have hone : i = 1 := by omega
      subst hone
      rw [add_molecule_ret]
      rfl
    · have h1' : 1 ≤ i - 1 := by omega
      rw [add_molecule_ret, buildTopology_replicate m (i - 1) h1']
      show ((List.range (i - 1)).map _).length + 1 = i
      simp
      omega

theorem claim_C3_witness :
    (buildTopology (List.replicate 3 mA)).n_reference_molecules = 1
    ∧ (buildTopology (List.replicate 3 mA)).n_molecules = 3
    ∧ ((buildTopology (List.replicate 1 mA)).add_molecule mA).2 = 2 := by
  have h := claim_C3 mA 3 (by decide)
  exact ⟨h.1, h.2.1, h.2.2 2 (by decide) (by decide)⟩

/-! ## Lemmas about the two linear scans -/

theorem topology_index_scan_found (cnt : TopologyMolecule → Nat) :
    ∀ (L₁ : List TopologyMolecule) (tm : TopologyMolecule)
      (L₂ : List TopologyMolecule) (loc start : Nat), loc < cnt tm →
      topology_index_scan cnt (start + sumCnt cnt L₁ + loc) (L₁ ++ tm :: L₂) start
        = some (loc, tm)
  | [], tm, L₂, loc, start, hloc => by
      have hs : sumCnt cnt ([] : List TopologyMolecule) = 0 := rfl
      simp only [List.nil_append, topology_index_scan, hs]
      rw [if_pos (by omega)]
      congr 1
      rw [Prod.mk.injEq]
      exact ⟨by omega, rfl⟩
  | m :: L₁, tm, L₂, loc, start, hloc => by
      have hc := sumCnt_cons cnt m L₁
      simp only [List.cons_append, topology_index_scan]
      rw [if_neg (by omega)]
      have hrec := topology_index_scan_found cnt L₁ tm L₂ loc (start + cnt m) hloc
      rw [show start + cnt m + sumCnt cnt L₁ + loc
          = start + sumCnt cnt (m :: L₁) + loc from by omega] at hrec
      exact hrec

theorem start_scan_found (cnt : TopologyMolecule → Nat) :
    ∀ (L₁ : List TopologyMolecule) (tm : TopologyMolecule)
      (L₂ : List TopologyMolecule) (acc : Nat), tm ∉ L₁ →
      start_topology_index_scan cnt tm (L₁ ++ tm :: L₂) acc
        = some (acc + sumCnt cnt L₁)
  | [], tm, L₂, acc, _ => by
      simp [start_topology_index_scan, sumCnt]
  | m :: L₁, tm, L₂, acc, hnm => by
      have hne : tm ≠ m := fun hh => hnm (hh ▸ List.mem_cons_self _ _)
      simp only [List.cons_append, start_topology_index_scan, if_neg hne]
      show start_topology_index_scan cnt tm (L₁ ++ tm :: L₂) (acc + cnt m)
        = some (acc + sumCnt cnt (m :: L₁))
      rw [start_scan_found cnt L₁ tm L₂ (acc + cnt m)
        (fun hh => hnm (List.mem_cons_of_mem _ hh))]
      congr 1
      have hc := sumCnt_cons cnt m L₁
      omega

theorem exists_scan_split (cnt : TopologyMolecule → Nat) :
    ∀ (L : List TopologyMolecule) (k : Nat), k < sumCnt cnt L →
      ∃ L₁ tm L₂, L = L₁ ++ tm :: L₂ ∧ sumCnt cnt L₁ ≤ k ∧
        k < sumCnt cnt L₁ + cnt tm
  | [], k, h => absurd h (by simp [sumCnt])
  | tm :: L, k, h => by
      by_cases hk : k < cnt tm
      · exact ⟨[], tm, L, rfl, by simp [sumCnt], by
          have hs : sumCnt cnt ([] : List TopologyMolecule) = 0 := rfl
          omega⟩
      · push_neg at hk
        have hc := sumCnt_cons cnt tm L
        have h' : k - cnt tm < sumCnt cnt L := by omega
        obtain ⟨L₁, tm', L₂, hL, hle, hlt⟩ := exists_scan_split cnt L (k - cnt tm) h'
        refine ⟨tm :: L₁, tm', L₂, by rw [hL]; rfl, ?_, ?_⟩
        · have hc1 := sumCnt_cons cnt tm L₁
          omega
        · have hc1 := sumCnt_cons cnt tm L₁
          omega

theorem inv_topMols_nodup (t : Topology) (h : TopologyInv t) :
    t.topMols.Nodup := by
  have hm : (t.topMols.map TopologyMolecule.instId).Nodup := by
    rw [h.ids]
    exact List.nodup_range _
  exact hm.of_map

theorem nodup_middle_not_mem {α : Type} {L₁ L₂ : List α} {a : α}
    (h : (L₁ ++ a :: L₂).Nodup) : a ∉ L₁ := by
  rcases List.nodup_append.mp h with ⟨_, _, hdisj⟩
  intro hmem
  exact hdisj hmem (List.mem_cons_self a L₂)

theorem scan_in_range (cnt : TopologyMolecule → Nat) (L : List TopologyMolecule)
    (k : Nat) (hk : k < sumCnt cnt L) :
    ∃ p, topology_index_scan cnt k L 0 = some p := by
  obtain ⟨L₁, tm, L₂, hL, hle, hlt⟩ := exists_scan_split cnt L k hk
  refine ⟨(k - sumCnt cnt L₁, tm), ?_⟩
  have hscan := topology_index_scan_found cnt L₁ tm L₂ (k - sumCnt cnt L₁) 0
    (by omega)
  rw [show 0 + sumCnt cnt L₁ + (k - sumCnt cnt L₁) = k from by omega] at hscan
  rw [hL, hscan]

/-! ## Claim C1: global atom lookup and index recomputation are inverse -/

theorem atom_lookup_inverse (t : Topology) (h : TopologyInv t) (k : Nat)
    (hk : k < t.n_atoms) :
    ∃ ta : TopologyAtom, t.atom (k : Int) = .ok (some ta)
      ∧ ta.topology_atom_index t = some k := by
  have hk0 : k < t.n_atoms := hk
  have hsum : t.n_atoms = sumCnt (fun tm => tm.n_atoms t) t.topMols :=
    h.counts Molecule.n_atoms
  rw [hsum] at hk
  obtain ⟨L₁, tm, L₂, hL, hle, hlt⟩ :=
    exists_scan_split (fun tm => tm.n_atoms t) t.topMols k hk
  have hlocle : k - sumCnt (fun tm => tm.n_atoms t) L₁ < tm.n_atoms t := by omega
  have hnodup : t.topMols.Nodup := inv_topMols_nodup t h
  have hnotmem : tm ∉ L₁ := nodup_middle_not_mem (hL ▸ hnodup)
  refine ⟨⟨k - sumCnt (fun tm => tm.n_atoms t) L₁, tm⟩, ?_, ?_⟩
  · unfold Topology.atom
    rw [if_pos ⟨Int.natCast_nonneg k, by exact_mod_cast hk0⟩]
    have hscan := topology_index_scan_found (fun tm => tm.n_atoms t) L₁ tm L₂
      (k - sumCnt (fun tm => tm.n_atoms t) L₁) 0 hlocle
    rw [show 0 + sumCnt (fun tm => tm.n_atoms t) L₁
        + (k - sumCnt (fun tm => tm.n_atoms t) L₁) = k from by omega] at hscan
    rw [Int.toNat_natCast, hL, hscan]
    rfl
  · unfold TopologyAtom.topology_atom_index TopologyMolecule.atom_start_topology_index
    show ((start_topology_index_scan (fun tm => tm.n_atoms t) tm t.topMols 0).map
      (· + (k - sumCnt (fun tm => tm.n_atoms t) L₁))) = some k
    rw [hL, start_scan_found (fun tm => tm.n_atoms t) L₁ tm L₂ 0 hnotmem]
    simp only [Option.map_some']
    congr 1
    omega

/-- C1: on every Topology built by `add_molecule` calls and every valid
global atom index k, `Topology.atom(k)` returns a TopologyAtom view whose
`topology_atom_index` (start offset of the owning instance plus the atom's
molecule-local index) is exactly k. -/
theorem claim_C1 (ms : List Molecule) (k : Nat)
    (hk : k < (buildTopology ms).n_atoms) :
    ∃ ta : TopologyAtom, (buildTopology ms).atom (k : Int) = .ok (some ta)
      ∧ ta.topology_atom_index (buildTopology ms) = some k :=
  atom_lookup_inverse (buildTopology ms) (topologyInv_build ms) k hk

theorem claim_C1_witness :
    ∃ ta : TopologyAtom,
      (buildTopology [mA]).atom ((1 : Nat) : Int) = .ok (some ta)
        ∧ ta.topology_atom_index (buildTopology [mA]) = some 1 :=
  claim_C1 [mA] 1 (by decide)

/-! ## Claim C9: range checking of the global lookups -/

/-- C9: the global atom, bond and virtual-site lookups fail with the
assertion error exactly when the index is negative or at least the
corresponding aggregate count, and under the precondition the linear scan
always returns a view — the fall-through None branch is unreachable. -/
theorem claim_C9 (ms : List Molecule) (k : Int) :
    ((∃ msg, (buildTopology ms).atom k = .error msg)
        ↔ (k < 0 ∨ ((buildTopology ms).n_atoms : Int) ≤ k))
    ∧ ((∃ msg, (buildTopology ms).bond k = .error msg)
        ↔ (k < 0 ∨ ((buildTopology ms).n_bonds : Int) ≤ k))
    ∧ ((∃ msg, (buildTopology ms).virtual_site k = .error msg)
        ↔ (k < 0 ∨ ((buildTopology ms).n_virtual_sites : Int) ≤ k))
    ∧ (0 ≤ k → k < ((buildTopology ms).n_atoms : Int) →
        ∃ ta, (buildTopology ms).atom k = .ok (some ta))
    ∧ (0 ≤ k → k < ((buildTopology ms).n_bonds : Int) →
        ∃ tb, (buildTopology ms).bond k = .ok (some tb))
    ∧ (0 ≤ k → k < ((buildTopology ms).n_virtual_sites : Int) →
        ∃ tv, (buildTopology ms).virtual_site k = .ok (some tv)) := by
  have h := topologyInv_build ms
  refine ⟨?_, ?_, ?_, ?_, ?_, ?_⟩
  · constructor
    · intro ⟨msg, hmsg⟩
      unfold Topology.atom at hmsg
      by_cases hc : 0 ≤ k ∧ k < ((buildTopology ms).n_atoms : Int)
      · rw [if_pos hc] at hmsg
        cases hmsg
      · push_neg at hc
        by_cases h0 : k < 0
        · exact Or.inl h0
        · exact Or.inr (hc (by omega))
    · intro hor
      refine ⟨"AssertionError", ?_⟩
      unfold Topology.atom
      rw [if_neg (by omega)]
  · constructor
    · intro ⟨msg, hmsg⟩
      unfold Topology.bond at hmsg
      by_cases hc : 0 ≤ k ∧ k < ((buildTopology ms).n_bonds : Int)
      · rw [if_pos hc] at hmsg
        cases hmsg
      · push_neg at hc
        by_cases h0 : k < 0
        · exact Or.inl h0
        · exact Or.inr (hc (by omega))
    · intro hor
      refine ⟨"AssertionError", ?_⟩
      unfold Topology.bond
      rw [if_neg (by omega)]
  · constructor
    · intro ⟨msg, hmsg⟩
      unfold Topology.virtual_site at hmsg
      by_cases hc : 0 ≤ k ∧ k < ((buildTopology ms).n_virtual_sites : Int)
      · rw [if_pos hc] at hmsg
        cases hmsg
      · push_neg at hc
        by_cases h0 : k < 0
        · exact Or.inl h0
        · exact Or.inr (hc (by omega))
    · intro hor
      refine ⟨"AssertionError", ?_⟩
      unfold Topology.virtual_site
      rw [if_neg (by omega)]
  · intro h0 hlt
    have hnat : k.toNat < (buildTopology ms).n_atoms := by omega
    have hsum : (buildTopology ms).n_atoms
        = sumCnt (fun tm => tm.n_atoms (buildTopology ms)) (buildTopology ms).topMols :=
      h.counts Molecule.n_atoms
    rw [hsum] at hnat
    obtain ⟨p, hp⟩ := scan_in_range (fun tm => tm.n_atoms (buildTopology ms))
      (buildTopology ms).topMols k.toNat hnat
    refine ⟨⟨p.1, p.2⟩, ?_⟩
    unfold Topology.atom
    rw [if_pos ⟨h0, hlt⟩, hp]
    rfl
  · intro h0 hlt
    have hnat : k.toNat < (buildTopology ms).n_bonds := by omega
    have hsum : (buildTopology ms).n_bonds
        = sumCnt (fun tm => tm.n_bonds (buildTopology ms)) (buildTopology ms).topMols :=
      h.counts Molecule.n_bonds
    rw [hsum] at hnat
    obtain ⟨p, hp⟩ := scan_in_range (fun tm => tm.n_bonds (buildTopology ms))
      (buildTopology ms).topMols k.toNat hnat
    refine ⟨⟨p.1, p.2⟩, ?_⟩
    unfold Topology.bond
    rw [if_pos ⟨h0, hlt⟩, hp]
    rfl
  · intro h0 hlt
    have hnat : k.toNat < (buildTopology ms).n_virtual_sites := by omega
    have hsum : (buildTopology ms).n_virtual_sites
        = sumCnt (fun tm => tm.n_virtual_sites (buildTopology ms))
            (buildTopology ms).topMols :=
      h.counts Molecule.n_virtual_sites
    rw [hsum] at hnat
    obtain ⟨p, hp⟩ := scan_in_range
      (fun tm => tm.n_virtual_sites (buildTopology ms))
      (buildTopology ms).topMols k.toNat hnat
    refine ⟨⟨p.1, p.2⟩, ?_⟩
    unfold Topology.virtual_site
    rw [if_pos ⟨h0, hlt⟩, hp]
    rfl

theorem claim_C9_witness :
    (∃ msg, (buildTopology [mA]).atom 5 = .error msg)
    ∧ (∃ tb, (buildTopology [mA]).bond 0 = .ok (some tb)) :=
  ⟨(claim_C9 [mA] 5).1.mpr (by decide),
   (claim_C9 [mA] 0).2.2.2.2.1 (by decide) (by decide)⟩

/-! ## Claim C4: chemical-environment matching unrolls over instances -/

theorem listGetD_lt {α : Type} :
    ∀ (l : List α) (i : Nat) (d : α) (h : i < l.length),
      l.getD i d = l.get ⟨i, h⟩
  | [], _, _, h => absurd h (by simp)
  | _ :: _, 0, _, _ => rfl
  | _ :: l, i + 1, d, h => listGetD_lt l i d (by simpa using h)

theorem listMapM_eq_map {α β : Type} (f : α → Option β) (g : α → β) :
    ∀ l : List α, (∀ x ∈ l, f x = some (g x)) → listMapM f l = some (l.map g)
  | [], _ => rfl
  | x :: xs, h => by
      simp only [listMapM, h x (List.mem_cons_self _ _),
        listMapM_eq_map f g xs (fun y hy => h y (List.mem_cons_of_mem _ hy)),
        List.map_cons]

theorem flatMap_map_length {α β γ : Type} (g : α → β → γ) :
    ∀ (l : List α) (L : List β),
      (l.flatMap (fun x => L.map (g x))).length = l.length * L.length
  | [], _ => by simp
  | x :: l, L => by
      rw [List.flatMap_cons, List.length_append, List.length_map,
        flatMap_map_length g l L, List.length_cons]
      ring

theorem atom_at_instance (t : Topology) (h : TopologyInv t)
    (tm : TopologyMolecule) (hmem : tm ∈ t.topMols) (loc : Nat)
    (hloc : loc < tm.n_atoms t) :
    ∃ s, tm.atom_start_topology_index t = some s
      ∧ t.atom ((s + loc : Nat) : Int) = .ok (some ⟨loc, tm⟩) := by
  obtain ⟨L₁, L₂, hL⟩ := List.append_of_mem hmem
  have hnodup := inv_topMols_nodup t h
  have hnotmem : tm ∉ L₁ := nodup_middle_not_mem (hL ▸ hnodup)
  refine ⟨0 + sumCnt (fun tm => tm.n_atoms t) L₁, ?_, ?_⟩
  · unfold TopologyMolecule.atom_start_topology_index
    rw [hL, start_scan_found _ L₁ tm L₂ 0 hnotmem]
  · have hsum : t.n_atoms = sumCnt (fun tm => tm.n_atoms t) t.topMols :=
      h.counts Molecule.n_atoms
    have htot : 0 + sumCnt (fun tm => tm.n_atoms t) L₁ + loc < t.n_atoms := by
      rw [hsum, hL, sumCnt_append, sumCnt_cons]
      omega
    unfold Topology.atom
    rw [if_pos ⟨Int.natCast_nonneg _, by exact_mod_cast htot⟩]
    have hscan := topology_index_scan_found (fun tm => tm.n_atoms t) L₁ tm L₂
      loc 0 hloc
    rw [Int.toNat_natCast, hL, hscan]
    rfl

theorem cemAtomTuple_eq (t : Topology) (h : TopologyInv t)
    (tm : TopologyMolecule) (hmem : tm ∈ t.topMols)
    (rmatch : List Nat) (hv : ∀ loc ∈ rmatch, loc < tm.n_atoms t) :
    cemAtomTuple t tm rmatch
      = some (rmatch.map (fun loc => some (⟨loc, tm⟩ : TopologyAtom))) := by
  unfold cemAtomTuple
  apply listMapM_eq_map
  intro loc hloc
  obtain ⟨s, hs, hatom⟩ := atom_at_instance t h tm hmem loc (hv loc hloc)
  simp only [hs, hatom]

theorem cemOverMatches_eq (t : Topology) (h : TopologyInv t)
    (insts : List TopologyMolecule) (nval : Nat)
    (hinst : ∀ tm ∈ insts, tm ∈ t.topMols ∧ tm.n_atoms t = nval) :
    ∀ mlist : List (List Nat),
      (∀ rmatch ∈ mlist, ∀ loc ∈ rmatch, loc < nval) →
      cemOverMatches t insts mlist
        = some (mlist.flatMap (fun rmatch =>
            insts.map (fun tm => rmatch.map (fun loc => some ⟨loc, tm⟩))))
  | [], _ => rfl
  | rmatch :: rest, hv => by
      have hhere : listMapM (fun tm => cemAtomTuple t tm rmatch) insts
          = some (insts.map (fun tm =>
              rmatch.map (fun loc => some (⟨loc, tm⟩ : TopologyAtom)))) := by
        apply listMapM_eq_map
        intro tm htm
        apply cemAtomTuple_eq t h tm (hinst tm htm).1 rmatch
        intro loc hloc
        rw [(hinst tm htm).2]
        exact hv rmatch (List.mem_cons_self _ _) loc hloc
      have hrest := cemOverMatches_eq t h insts nval hinst rest
        (fun r hr loc hl => hv r (List.mem_cons_of_mem _ hr) loc hl)
      simp only [cemOverMatches, hhere, hrest, List.flatMap_cons]

theorem cemOverRefMols_eq (t : Topology) (h : TopologyInv t) (smarts : String) :
    ∀ zl : List (Molecule × List TopologyMolecule),
      (∀ p ∈ zl, ∀ rmatch ∈ p.1.chemical_environment_matches smarts,
        ∀ loc ∈ rmatch, loc < p.1.n_atoms) →
      (∀ p ∈ zl, ∀ tm ∈ p.2, tm ∈ t.topMols ∧ tm.n_atoms t = p.1.n_atoms) →
      cemOverRefMols t smarts zl = some (cemSpecMatches smarts zl)
  | [], _, _ => rfl
  | (rm, insts) :: rest, hv, hins => by
      have hhere := cemOverMatches_eq t h insts rm.n_atoms
        (fun tm htm => hins (rm, insts) (List.mem_cons_self _ _) tm htm)
        (rm.chemical_environment_matches smarts)
        (fun rmatch hr loc hl =>
          hv (rm, insts) (List.mem_cons_self _ _) rmatch hr loc hl)
      have hrest := cemOverRefMols_eq t h smarts rest
        (fun p hp => hv p (List.mem_cons_of_mem _ hp))
        (fun p hp => hins p (List.mem_cons_of_mem _ hp))
      simp only [cemOverRefMols, hhere, hrest, cemSpecMatches]

/-- C4: chemical_environment_matches asks each reference molecule once for
its matches and unrolls every match over every instance of that reference
molecule, producing — in reference-molecule, then match, then instance
order — tuples of atom views at instance offset + local index (which is what
`cemSpecMatches` spells out); on a Topology of 3 identical instances the
result has exactly 3 times as many tuples as one instance's matches. -/
theorem claim_C4 (smarts : String) :
    (∀ ms : List Molecule,
        (∀ rm ∈ (buildTopology ms).refMols,
          ∀ rmatch ∈ rm.chemical_environment_matches smarts,
          ∀ loc ∈ rmatch, loc < rm.n_atoms) →
        (buildTopology ms).chemical_environment_matches smarts
          = some (cemSpecMatches smarts
              ((buildTopology ms).refMols.zip (buildTopology ms).refInstances)))
    ∧ (∀ m : Molecule,
        (∀ rmatch ∈ m.chemical_environment_matches smarts,
          ∀ loc ∈ rmatch, loc < m.n_atoms) →
        ∃ res,
          (buildTopology (List.replicate 3 m)).chemical_environment_matches
              smarts = some res
          ∧ res.length = 3 * (m.chemical_environment_matches smarts).length) := by
  have hmain : ∀ ms : List Molecule,
      (∀ rm ∈ (buildTopology ms).refMols,
        ∀ rmatch ∈ rm.chemical_environment_matches smarts,
        ∀ loc ∈ rmatch, loc < rm.n_atoms) →
      (buildTopology ms).chemical_environment_matches smarts
        = some (cemSpecMatches smarts
            ((buildTopology ms).refMols.zip (buildTopology ms).refInstances)) := by
    intro ms hvalid
    have h := topologyInv_build ms
    unfold Topology.chemical_environment_matches
    apply cemOverRefMols_eq _ h
    · intro p hp
      obtain ⟨i, h₁, h₂, hh₁, hh₂⟩ := zip_mem_get _ _ p hp
      exact hvalid p.1 (hh₁ ▸ List.get_mem _ i h₁)
    · intro p hp tm htm
      obtain ⟨i, h₁, h₂, hh₁, hh₂⟩ := zip_mem_get _ _ p hp
      have htm' : tm ∈ (buildTopology ms).refInstances.getD i [] := by
        rw [listGetD_lt _ _ _ h₂, hh₂]
        exact htm
      obtain ⟨hmem, hidx⟩ := h.inst_mem i tm htm'
      refine ⟨hmem, ?_⟩
      unfold TopologyMolecule.n_atoms TopologyMolecule.reference_molecule
      rw [hidx, listGetD_lt _ _ _ h₁, hh₁]
  refine ⟨hmain, ?_⟩
  intro m hv3
  have hchar := buildTopology_replicate m 3 (by omega)
  have hval : ∀ rm ∈ (buildTopology (List.replicate 3 m)).refMols,
      ∀ rmatch ∈ rm.chemical_environment_matches smarts,
      ∀ loc ∈ rmatch, loc < rm.n_atoms := by
    intro rm hrm
    rw [hchar] at hrm
    rcases List.mem_singleton.mp hrm with rfl
    exact hv3
  refine ⟨_, hmain (List.replicate 3 m) hval, ?_⟩
  rw [hchar]
  show (cemSpecMatches smarts
      [(FrozenMolecule m, (List.range 3).map (fun i => (⟨0, i⟩ : TopologyMolecule)))]).length
    = 3 * (m.chemical_environment_matches smarts).length
  simp only [cemSpecMatches, List.append_nil]
  rw [flatMap_map_length]
  simp [FrozenMolecule]
  ring

theorem claim_C4_witness :
    (buildTopology [mA]).chemical_environment_matches "[*:1]~[*:2]"
        = some (cemSpecMatches "[*:1]~[*:2]"
            ((buildTopology [mA]).refMols.zip (buildTopology [mA]).refInstances))
    ∧ ∃ res,
        (buildTopology (List.replicate 3 mA)).chemical_environment_matches
            "[*:1]~[*:2]" = some res
        ∧ res.length = 3 * (mA.chemical_environment_matches "[*:1]~[*:2]").length :=
  ⟨(claim_C4 "[*:1]~[*:2]").1 [mA] (by decide),
   (claim_C4 "[*:1]~[*:2]").2 mA (by decide)⟩

end OpenFF
